import Mathlib

/-!
# CryptoGap: arbitrage-calculator core, shallowly embedded

A shallow embedding of `utils/arbitrage_calculator.py` (class
`ArbitrageCalculator`) together with the configuration it reads from
`config/config.py` and the schema of the price tables produced by
`data/binance_fetcher.py` / `data/kraken_fetcher.py`
(`get_top_crypto_prices`).

Modelling conventions:
* Prices are rationals (`ℚ`); an exchange price cell is `Option ℚ`, with
  `none` standing for pandas `NaN` / `None` (an absent price).
* A pandas `DataFrame` of prices is a list of rows; `df.empty` is `= []`.
  The fetchers emit one column `f"{market}_price"` per configured market,
  so a row carries one optional cell per market in
  `MARKETS = ["USDT", "BTC"]`.
* `pd.merge(..., on='Symbol')` (inner join) is modelled keeping the left
  (Binance) row order and, per left row, the right (Kraken) matches in
  right order.
* `DataFrame.sort_values(by=key, ascending=False)` is modelled the way
  pandas computes it (`pandas.core.sorting.nargsort`): values and index
  are pre-reversed, a stable ascending argsort is taken, and the indexer
  is reversed again, so the descending result keeps ties in input order.
  The stable ascending sort is `List.insertionSort` on `≤` of the key.
* `time.time()` timestamps are wall-clock, outside the pure embedding, and
  are omitted from the records.
* The mutable attribute `self.last_opportunity` (initially `None`, read
  back by `get_last_opportunity`, which turns a falsy value into `{}`) is
  threaded explicitly: the state-touching operation takes the previous
  state and returns the new one, `none` standing for "never set" / the
  `{}` sentinel.
-/

namespace CryptoGap

/-- `config/config.py`: `MARKETS = ["USDT", "BTC"]`. -/
def MARKETS : List String := ["USDT", "BTC"]

/-- `config/config.py`: `TOP_CRYPTOS`, the tracked symbol universe.  Both
fetchers build one table row per element of this list (and no others). -/
def TOP_CRYPTOS : List String :=
  ["BTC", "ETH", "SOL", "BNB", "XRP", "ADA", "DOGE", "DOT", "LINK", "LTC"]

/-- One row of an exchange's price table as built by
`get_top_crypto_prices`: a `Symbol` column plus one `f"{market}_price"`
column per configured market; a cell is `none` when the pair (direct or
inverse) is unavailable (`NaN`). -/
structure PriceRow where
  symbol : String
  usdt_price : Option ℚ
  btc_price : Option ℚ
deriving DecidableEq

/-- A price `DataFrame`: one `PriceRow` per tracked symbol. -/
abbrev PriceTable := List PriceRow

/-- `row.get(f"{market}_price")`: the cell for `market`, `none` both for a
`NaN` cell and for a market without a column (`row.get` returns `None`,
and `pd.isna(None)` holds). -/
def marketPrice (r : PriceRow) (market : String) : Option ℚ :=
  if market = "USDT" then r.usdt_price
  else if market = "BTC" then r.btc_price
  else none

/-- `pd.merge(binance_prices, kraken_prices, on='Symbol', ...)`: inner
join on the symbol, left-table row order, each left row paired with every
matching right row in right-table order. -/
def mergeTables (b k : PriceTable) : List (PriceRow × PriceRow) :=
  b.flatMap fun rb =>
    (k.filter fun rk => rk.symbol == rb.symbol).map fun rk => (rb, rk)

/-- An arbitrage opportunity record as appended by
`calculate_arbitrage_opportunities` (the `Timestamp` field, `time.time()`,
is omitted: wall-clock time is outside the pure embedding). -/
structure Opportunity where
  symbol : String
  market : String
  buy_exchange : String
  sell_exchange : String
  buy_price : ℚ
  sell_price : ℚ
  price_diff_pct : ℚ
deriving DecidableEq

/-- The loop body of `calculate_arbitrage_opportunities` for one merged
row and one configured market: skip self-pairs (`symbol == market`), skip
missing prices, compute
`price_diff_pct = abs(b - k) / min(b, k) * 100`, orient buy/sell toward
the cheaper exchange (Kraken on an exact tie), and keep the record only
`if price_diff_pct > 0`. -/
def scoreOne (rb rk : PriceRow) (market : String) : Option Opportunity :=
  if rb.symbol = market then none
  else
    match marketPrice rb market, marketPrice rk market with
    | some bp, some kp =>
      let price_diff_pct := |bp - kp| / min bp kp * 100
      let o : Opportunity :=
        if bp < kp then
          ⟨rb.symbol, market, "Binance", "Kraken", bp, kp, price_diff_pct⟩
        else
          ⟨rb.symbol, market, "Kraken", "Binance", kp, bp, price_diff_pct⟩
      if price_diff_pct > 0 then some o else none
    | _, _ => none

/-- The `opportunities` list accumulated by the double loop of
`calculate_arbitrage_opportunities`, in loop order (merged rows outer,
`MARKETS` inner), before the sort. -/
def rawOpportunities (b k : PriceTable) : List Opportunity :=
  (mergeTables b k).flatMap fun rr => MARKETS.filterMap (scoreOne rr.1 rr.2)

/-- `df.sort_values(by=key, ascending=False)`: pandas
(`pandas.core.sorting.nargsort`) pre-reverses the values and the index
array, computes a stable ascending argsort, and reverses the resulting
indexer, so the descending sort keeps records with equal keys in their
input order. -/
def sortDescBy {α : Type} (key : α → ℚ) (l : List α) : List α :=
  (l.reverse.insertionSort fun x y => key x ≤ key y).reverse

/-- `ArbitrageCalculator.calculate_arbitrage_opportunities`, with the
`self.last_opportunity` state threaded explicitly.  Empty fetch results
return an empty frame and untouched state; an empty scored list likewise;
otherwise the scored records are sorted descending by `Price_Diff_Pct`
and the top row (`iloc[0]`) overwrites the stored last opportunity. -/
def calculate_arbitrage_opportunities (b k : PriceTable)
    (last : Option Opportunity) : List Opportunity × Option Opportunity :=
  if b = [] ∨ k = [] then ([], last)
  else if rawOpportunities b k = [] then ([], last)
  else
    (sortDescBy Opportunity.price_diff_pct (rawOpportunities b k),
      match (sortDescBy Opportunity.price_diff_pct
          (rawOpportunities b k)).head? with
      | some o => some o
      | none => last)

/-- `ArbitrageCalculator.get_last_opportunity`: returns the stored record,
with falsy (`None`) turned into the `{}` sentinel — both modelled by
`none`. -/
def get_last_opportunity (st : Option Opportunity) : Option Opportunity := st

/-- A row of the frame returned by `get_low_price_gainers` after column
selection and renaming. -/
structure LowPriceGainer where
  symbol : String
  binance_price : ℚ
  kraken_price : ℚ
  price_diff_pct : ℚ
  avg_price : ℚ
deriving DecidableEq

/-- `ArbitrageCalculator.get_low_price_gainers`: merge the tables, keep
rows with both `USDT_price` cells present and at least one below 1
(`(b < 1) | (k < 1)` is false on `NaN`, matching the explicit `isna`
conjuncts), annotate with `Price_Diff_Pct` and the row mean `Avg_Price`,
and sort descending by `Price_Diff_Pct`. -/
def get_low_price_gainers (b k : PriceTable) : List LowPriceGainer :=
  if b = [] ∨ k = [] then []
  else
    sortDescBy LowPriceGainer.price_diff_pct
      ((mergeTables b k).filterMap fun rr =>
        match rr.1.usdt_price, rr.2.usdt_price with
        | some pb, some pk =>
          if pb < 1 ∨ pk < 1 then
            some (⟨rr.1.symbol, pb, pk,
                   |pb - pk| / min pb pk * 100, (pb + pk) / 2⟩ :
                  LowPriceGainer)
          else none
        | _, _ => none)

/-- IEEE-style division on price cells: `NaN` (here `none`) propagates, as
in the float arithmetic of `calculate_trade_profit`. -/
def nanDiv : Option ℚ → Option ℚ → Option ℚ
  | some a, some b => some (a / b)
  | _, _ => none

/-- IEEE-style multiplication on price cells: `NaN` propagates. -/
def nanMul : Option ℚ → Option ℚ → Option ℚ
  | some a, some b => some (a * b)
  | _, _ => none

/-- IEEE-style subtraction on price cells: `NaN` propagates. -/
def nanSub : Option ℚ → Option ℚ → Option ℚ
  | some a, some b => some (a - b)
  | _, _ => none

/-- `x > 0` on a price cell: an IEEE comparison against `NaN` is false. -/
def nanPos : Option ℚ → Bool
  | some a => decide (0 < a)
  | none => false

/-- `table[table['Symbol'] == symbol][f"{market}_price"].values[0]`: the
first row carrying the symbol, then the market's cell.  The outer `none`
models the exceptions the caller catches — `KeyError` when `market` has no
column in the fetcher schema, `IndexError` when no row matches — while the
inner `Option ℚ` is the cell itself, possibly `NaN`. -/
def lookupPriceCell (t : PriceTable) (symbol market : String) :
    Option (Option ℚ) :=
  if market = "USDT" ∨ market = "BTC" then
    (t.find? fun r => r.symbol == symbol).map fun r => marketPrice r market
  else none

/-- The dictionary returned by a non-failing `calculate_trade_profit`.
Fields computed from prices are cells (`Option ℚ`): a `NaN` price
propagates into them. -/
structure TradeSimulation where
  symbol : String
  market : String
  initial_investment : ℚ
  buy_exchange : String
  buy_price : Option ℚ
  crypto_amount : Option ℚ
  sell_exchange : String
  sell_price : Option ℚ
  sell_amount : Option ℚ
  final_amount : Option ℚ
  profit : Option ℚ
  profit_percentage : Option ℚ
  profitable : Bool
deriving DecidableEq

/-- `ArbitrageCalculator.calculate_trade_profit`: `none` is the `{}`
returned on empty fetch results or when a lookup raises (caught by the
`except` block).  The buy price is the Binance cell exactly when
`buy_exchange == 'Binance'`, otherwise the Kraken cell, and symmetrically
for the sell side; the round-trip arithmetic then runs in IEEE style on
the cells. -/
def calculate_trade_profit (b k : PriceTable) (symbol market : String)
    (amount : ℚ) (buy_exchange sell_exchange : String) :
    Option TradeSimulation :=
  if b = [] ∨ k = [] then none
  else
    match lookupPriceCell b symbol market, lookupPriceCell k symbol market with
    | some binance_price, some kraken_price =>
      let buy_price := if buy_exchange = "Binance" then binance_price else kraken_price
      let sell_price := if sell_exchange = "Binance" then binance_price else kraken_price
      let crypto_amount := nanDiv (some amount) buy_price
      let sell_amount := nanMul crypto_amount sell_price
      let final_amount := sell_amount
      let profit := nanSub final_amount (some amount)
      let profit_percentage := nanMul (nanDiv profit (some amount)) (some 100)
      some ⟨symbol, market, amount, buy_exchange, buy_price, crypto_amount,
            sell_exchange, sell_price, sell_amount, final_amount, profit,
            profit_percentage, nanPos profit⟩
    | _, _ => none

/-! ## General lemmas -/

lemma sortDescBy_nil {α : Type} (key : α → ℚ) : sortDescBy key [] = [] := rfl

lemma mergeTables_nil_right (b : PriceTable) : mergeTables b [] = [] := by
  induction b with
  | nil => rfl
  | cons r t ih =>
    simp only [mergeTables] at ih ⊢
    simp [List.flatMap_cons, ih]

lemma rawOpportunities_nil_left (k : PriceTable) :
    rawOpportunities [] k = [] := rfl

lemma rawOpportunities_nil_right (b : PriceTable) :
    rawOpportunities b [] = [] := by
  simp [rawOpportunities, mergeTables_nil_right]

lemma calcArb_fst (b k : PriceTable) (st : Option Opportunity) :
    (calculate_arbitrage_opportunities b k st).1
      = sortDescBy Opportunity.price_diff_pct (rawOpportunities b k) := by
  unfold calculate_arbitrage_opportunities
  split
  · next h =>
    rcases h with h | h <;> subst h <;>
      simp [rawOpportunities_nil_left, rawOpportunities_nil_right, sortDescBy_nil]
  · split
    · next h => rw [h, sortDescBy_nil]
    · rfl

lemma mem_sortDescBy {α : Type} {key : α → ℚ} {l : List α} {x : α} :
    x ∈ sortDescBy key l ↔ x ∈ l := by
  simp [sortDescBy, List.mem_insertionSort]

lemma mem_calcArb {b k : PriceTable} {st : Option Opportunity}
    {o : Opportunity} :
    o ∈ (calculate_arbitrage_opportunities b k st).1 ↔
      o ∈ rawOpportunities b k := by
  rw [calcArb_fst, mem_sortDescBy]

lemma mem_rawOpportunities {b k : PriceTable} {o : Opportunity}
    (h : o ∈ rawOpportunities b k) :
    ∃ rb rk market, (rb, rk) ∈ mergeTables b k ∧ market ∈ MARKETS ∧
      scoreOne rb rk market = some o := by
  simp only [rawOpportunities, List.mem_flatMap, List.mem_filterMap] at h
  obtain ⟨⟨rb, rk⟩, hm, market, hmk, hs⟩ := h
  exact ⟨rb, rk, market, hm, hmk, hs⟩

lemma mem_mergeTables {b k : PriceTable} {rb rk : PriceRow}
    (h : (rb, rk) ∈ mergeTables b k) : rb ∈ b ∧ rk ∈ k := by
  simp only [mergeTables, List.mem_flatMap, List.mem_map, List.mem_filter] at h
  obtain ⟨rb', hb', rk', ⟨hk', _⟩, heq⟩ := h
  cases heq
  exact ⟨hb', hk'⟩

lemma scoreOne_inv {rb rk : PriceRow} {market : String} {o : Opportunity}
    (h : scoreOne rb rk market = some o) :
    ∃ bp kp, marketPrice rb market = some bp ∧
      marketPrice rk market = some kp ∧
      rb.symbol ≠ market ∧ 0 < |bp - kp| / min bp kp * 100 ∧
      ((bp < kp ∧
        o = ⟨rb.symbol, market, "Binance", "Kraken", bp, kp,
             |bp - kp| / min bp kp * 100⟩) ∨
       (¬ bp < kp ∧
        o = ⟨rb.symbol, market, "Kraken", "Binance", kp, bp,
             |bp - kp| / min bp kp * 100⟩)) := by
  simp only [scoreOne] at h
  split at h
  · exact absurd h (by simp)
  · next hsym =>
    split at h
    · next bp kp hbp hkp =>
      split at h
      · next hpos =>
        refine ⟨bp, kp, hbp, hkp, hsym, hpos, ?_⟩
        by_cases hlt : bp < kp
        · exact Or.inl ⟨hlt, by rw [← Option.some.inj h, if_pos hlt]⟩
        · exact Or.inr ⟨hlt, by rw [← Option.some.inj h, if_neg hlt]⟩
      · exact absurd h (by simp)
    · exact absurd h (by simp)

lemma sorted_sortDescBy {α : Type} (key : α → ℚ) (l : List α) :
    (sortDescBy key l).Pairwise fun x y => key y ≤ key x := by
  haveI : IsTotal α fun x y => key x ≤ key y := ⟨fun a b => le_total _ _⟩
  haveI : IsTrans α fun x y => key x ≤ key y :=
    ⟨fun _ _ _ h1 h2 => le_trans h1 h2⟩
  rw [sortDescBy, List.pairwise_reverse]
  exact List.sorted_insertionSort (fun x y => key x ≤ key y) l.reverse

lemma filter_orderedInsert_of_key_eq {α : Type} (key : α → ℚ) (v : ℚ)
    (a : α) (l : List α) (ha : key a = v) :
    ((l.orderedInsert (fun x y => key x ≤ key y) a).filter
        fun x => key x == v)
      = a :: l.filter fun x => key x == v := by
  induction l with
  | nil => simp [ha]
  | cons c t ih =>
    by_cases hr : key a ≤ key c
    · rw [List.orderedInsert, if_pos hr, List.filter_cons]
      simp [ha]
    · have hcv : ¬ key c = v := by
        have h1 : key c < key a := lt_of_not_le hr
        rw [ha] at h1
        exact ne_of_lt h1
      rw [List.orderedInsert, if_neg hr, List.filter_cons, List.filter_cons]
      simp [hcv, ih]

lemma filter_orderedInsert_of_key_ne {α : Type} (key : α → ℚ) (v : ℚ)
    (a : α) (l : List α) (ha : ¬ key a = v) :
    ((l.orderedInsert (fun x y => key x ≤ key y) a).filter
        fun x => key x == v)
      = l.filter fun x => key x == v := by
  induction l with
  | nil => simp [ha]
  | cons c t ih =>
    by_cases hr : key a ≤ key c
    · rw [List.orderedInsert, if_pos hr, List.filter_cons]
      simp [ha]
    · rw [List.orderedInsert, if_neg hr, List.filter_cons, List.filter_cons]
      simp [ih]

lemma filter_insertionSort_key {α : Type} (key : α → ℚ) (v : ℚ)
    (l : List α) :
    ((l.insertionSort fun x y => key x ≤ key y).filter fun x => key x == v)
      = l.filter fun x => key x == v := by
  induction l with
  | nil => rfl
  | cons a t ih =>
    by_cases ha : key a = v
    · rw [List.insertionSort, filter_orderedInsert_of_key_eq key v a _ ha,
        ih, List.filter_cons]
      simp [ha]
    · rw [List.insertionSort, filter_orderedInsert_of_key_ne key v a _ ha,
        ih, List.filter_cons]
      simp [ha]

lemma filter_sortDescBy {α : Type} (key : α → ℚ) (v : ℚ) (l : List α) :
    ((sortDescBy key l).filter fun x => key x == v)
      = l.filter fun x => key x == v := by
  rw [sortDescBy, List.filter_reverse, filter_insertionSort_key,
    List.filter_reverse, List.reverse_reverse]

lemma mem_low_price_gainers {b k : PriceTable} {g : LowPriceGainer}
    (h : g ∈ get_low_price_gainers b k) :
    ∃ rb rk, (rb, rk) ∈ mergeTables b k ∧
      rb.usdt_price = some g.binance_price ∧
      rk.usdt_price = some g.kraken_price ∧
      g.symbol = rb.symbol ∧
      (g.binance_price < 1 ∨ g.kraken_price < 1) ∧
      g.avg_price = (g.binance_price + g.kraken_price) / 2 ∧
      g.price_diff_pct
        = |g.binance_price - g.kraken_price| /
            min g.binance_price g.kraken_price * 100 := by
  simp only [get_low_price_gainers] at h
  split at h
  · exact absurd h (by simp)
  · rw [mem_sortDescBy, List.mem_filterMap] at h
    obtain ⟨⟨rb, rk⟩, hmem, hfn⟩ := h
    dsimp only at hfn
    split at hfn
    · next pb pk hpb hpk =>
      split at hfn
      · next hcond =>
        cases Option.some.inj hfn
        exact ⟨rb, rk, hmem, hpb, hpk, rfl, hcond, rfl, rfl⟩
      · exact absurd hfn (by simp)
    · exact absurd hfn (by simp)

/-! ## Concrete runs used by witnesses and counterexamples -/

lemma scoreOne_run1_usdt :
    scoreOne ⟨"BTC", some 100, none⟩ ⟨"BTC", some 102, none⟩ "USDT"
      = some ⟨"BTC", "USDT", "Binance", "Kraken", 100, 102, 2⟩ := by
  norm_num [scoreOne, marketPrice,
    (by decide : ("BTC" : String) ≠ "USDT")]

lemma scoreOne_run1_btc :
    scoreOne ⟨"BTC", some 100, none⟩ ⟨"BTC", some 102, none⟩ "BTC"
      = none := by
  norm_num [scoreOne, marketPrice]

lemma raw_run1 :
    rawOpportunities [⟨"BTC", some 100, none⟩] [⟨"BTC", some 102, none⟩]
      = [⟨"BTC", "USDT", "Binance", "Kraken", 100, 102, 2⟩] := by
  simp [rawOpportunities, mergeTables, MARKETS, scoreOne_run1_usdt,
    scoreOne_run1_btc]

lemma calc_run1 :
    calculate_arbitrage_opportunities [⟨"BTC", some 100, none⟩]
        [⟨"BTC", some 102, none⟩] none
      = ([⟨"BTC", "USDT", "Binance", "Kraken", 100, 102, 2⟩],
         some ⟨"BTC", "USDT", "Binance", "Kraken", 100, 102, 2⟩) := by
  simp [calculate_arbitrage_opportunities, raw_run1, sortDescBy]

lemma scoreOne_tie_usdt :
    scoreOne ⟨"ETH", some 5, none⟩ ⟨"ETH", some 5, none⟩ "USDT" = none := by
  norm_num [scoreOne, marketPrice,
    (by decide : ("ETH" : String) ≠ "USDT")]

lemma scoreOne_tie_btc :
    scoreOne ⟨"ETH", some 5, none⟩ ⟨"ETH", some 5, none⟩ "BTC" = none := by
  norm_num [scoreOne, marketPrice,
    (by decide : ("ETH" : String) ≠ "BTC"),
    (by decide : ("BTC" : String) ≠ "USDT")]

lemma calc_tie :
    (calculate_arbitrage_opportunities [⟨"ETH", some 5, none⟩]
        [⟨"ETH", some 5, none⟩] none).1 = [] := by
  have hraw :
      rawOpportunities [⟨"ETH", some 5, none⟩] [⟨"ETH", some 5, none⟩]
        = [] := by
    simp [rawOpportunities, mergeTables, MARKETS, scoreOne_tie_usdt,
      scoreOne_tie_btc]
  simp [calculate_arbitrage_opportunities, hraw]

lemma scoreOne_ties_usdt :
    scoreOne ⟨"ETH", some 1, some 1⟩ ⟨"ETH", some 2, some 2⟩ "USDT"
      = some ⟨"ETH", "USDT", "Binance", "Kraken", 1, 2, 100⟩ := by
  norm_num [scoreOne, marketPrice,
    (by decide : ("ETH" : String) ≠ "USDT")]

lemma scoreOne_ties_btc :
    scoreOne ⟨"ETH", some 1, some 1⟩ ⟨"ETH", some 2, some 2⟩ "BTC"
      = some ⟨"ETH", "BTC", "Binance", "Kraken", 1, 2, 100⟩ := by
  norm_num [scoreOne, marketPrice,
    (by decide : ("ETH" : String) ≠ "USDT"),
    (by decide : ("ETH" : String) ≠ "BTC")]

lemma raw_ties :
    rawOpportunities [⟨"ETH", some 1, some 1⟩] [⟨"ETH", some 2, some 2⟩]
      = [⟨"ETH", "USDT", "Binance", "Kraken", 1, 2, 100⟩,
         ⟨"ETH", "BTC", "Binance", "Kraken", 1, 2, 100⟩] := by
  simp [rawOpportunities, mergeTables, MARKETS, scoreOne_ties_usdt,
    scoreOne_ties_btc]

lemma calc_ties :
    (calculate_arbitrage_opportunities [⟨"ETH", some 1, some 1⟩]
        [⟨"ETH", some 2, some 2⟩] none).1
      = [⟨"ETH", "USDT", "Binance", "Kraken", 1, 2, 100⟩,
         ⟨"ETH", "BTC", "Binance", "Kraken", 1, 2, 100⟩] := by
  simp [calculate_arbitrage_opportunities, raw_ties, sortDescBy,
    List.orderedInsert]

lemma gain_run :
    get_low_price_gainers [⟨"DOGE", some (1/2), none⟩]
        [⟨"DOGE", some (1/4), none⟩]
      = [⟨"DOGE", 1/2, 1/4, 100, 3/8⟩] := by
  norm_num [get_low_price_gainers, mergeTables, sortDescBy,
    List.filterMap_cons, List.filterMap_nil]
  rw [abs_of_pos (by norm_num : (0 : ℚ) < 1/4)]
  norm_num

lemma lookup_trade_b :
    lookupPriceCell [⟨"BTC", some 50000, none⟩] "BTC" "USDT"
      = some (some 50000) := rfl

lemma lookup_trade_k :
    lookupPriceCell [⟨"BTC", some 50100, none⟩] "BTC" "USDT"
      = some (some 50100) := rfl

lemma trade_run :
    calculate_trade_profit [⟨"BTC", some 50000, none⟩]
        [⟨"BTC", some 50100, none⟩] "BTC" "USDT" 100 "Binance" "Kraken"
      = some ⟨"BTC", "USDT", 100, "Binance", some 50000, some (1/500),
              "Kraken", some 50100, some (501/5), some (501/5),
              some (1/5), some (1/5), true⟩ := by
  norm_num [calculate_trade_profit, lookup_trade_b, lookup_trade_k,
    nanDiv, nanMul, nanSub, nanPos,
    (by decide : ("Kraken" : String) ≠ "Binance")]

/-! ## Claims -/

/-- C1: every Opportunity emitted by `calculate_arbitrage_opportunities`
has `buy_price ≤ sell_price` (the buy side is the cheaper exchange), and
`price_diff_pct = |p1 - p2| / min(p1, p2) * 100` for the two exchange
prices of that (symbol, market) pair: the record's buy/sell prices are the
min/max of the two merged-row prices and the percentage is computed from
them. -/
theorem opportunity_buy_le_sell_diff_formula :
    ∀ (b k : PriceTable) (st : Option Opportunity) (o : Opportunity),
      o ∈ (calculate_arbitrage_opportunities b k st).1 →
      o.buy_price ≤ o.sell_price ∧
      ∃ rb rk bp kp, (rb, rk) ∈ mergeTables b k ∧ rb.symbol = o.symbol ∧
        marketPrice rb o.market = some bp ∧
        marketPrice rk o.market = some kp ∧
        o.buy_price = min bp kp ∧ o.sell_price = max bp kp ∧
        o.price_diff_pct = |bp - kp| / min bp kp * 100 := by
  intro b k st o ho
  obtain ⟨rb, rk, market, hmem, hmk, hs⟩ :=
    mem_rawOpportunities (mem_calcArb.mp ho)
  obtain ⟨bp, kp, hbp, hkp, hsym, hpos, hcase⟩ := scoreOne_inv hs
  rcases hcase with ⟨hlt, rfl⟩ | ⟨hnlt, rfl⟩
  · exact ⟨le_of_lt hlt, rb, rk, bp, kp, hmem, rfl, hbp, hkp,
      (min_eq_left (le_of_lt hlt)).symm,
      (max_eq_right (le_of_lt hlt)).symm, rfl⟩
  · have hle : kp ≤ bp := le_of_not_lt hnlt
    exact ⟨hle, rb, rk, bp, kp, hmem, rfl, hbp, hkp,
      (min_eq_right hle).symm, (max_eq_left hle).symm, rfl⟩

/-- C1 witness: the theorem applied to a concrete run where Binance lists
BTC/USDT at 100 and Kraken at 102. -/
theorem opportunity_buy_le_sell_diff_formula_witness :
    (⟨"BTC", "USDT", "Binance", "Kraken", 100, 102, 2⟩ :
        Opportunity).buy_price ≤
      (⟨"BTC", "USDT", "Binance", "Kraken", 100, 102, 2⟩ :
        Opportunity).sell_price :=
  (opportunity_buy_le_sell_diff_formula [⟨"BTC", some 100, none⟩]
    [⟨"BTC", some 102, none⟩] none _ (by simp [calc_run1])).1

/-- C2 counterexample: with both exchanges reporting the identical price 5
for ETH/USDT (both prices present), the claim says the record is still
emitted with `diff_pct == 0`; the code's filter `if price_diff_pct > 0`
drops it and the returned sequence is empty. -/
theorem tie_not_emitted_counterexample :
    marketPrice ⟨"ETH", some 5, none⟩ "USDT" = some 5 ∧
    ("ETH" : String) ≠ "USDT" ∧
    (calculate_arbitrage_opportunities [⟨"ETH", some 5, none⟩]
        [⟨"ETH", some 5, none⟩] none).1 = [] :=
  ⟨rfl, by decide, calc_tie⟩

/-- C2 amended: for a merged row and market with both prices present (and
positive, as exchange prices are), the scorer emits an Opportunity exactly
when the two prices DIFFER; an exact tie gives `price_diff_pct == 0` and
is NOT emitted — the filter is `price_diff_pct > 0`. -/
theorem emission_iff_prices_differ :
    ∀ (rb rk : PriceRow) (market : String) (bp kp : ℚ),
      rb.symbol ≠ market →
      marketPrice rb market = some bp →
      marketPrice rk market = some kp →
      0 < bp → 0 < kp →
      ((scoreOne rb rk market).isSome ↔ bp ≠ kp) := by
  intro rb rk market bp kp hsym hb hk hbp hkp
  have hdiff : 0 < |bp - kp| / min bp kp * 100 ↔ bp ≠ kp := by
    constructor
    · intro h heq
      rw [heq] at h
      simp at h
    · intro hne
      have h1 : 0 < |bp - kp| := abs_pos.mpr (sub_ne_zero.mpr hne)
      have h2 : 0 < min bp kp := lt_min hbp hkp
      exact mul_pos (div_pos h1 h2) (by norm_num)
  simp only [scoreOne, hb, hk, if_neg hsym]
  by_cases hp : 0 < |bp - kp| / min bp kp * 100
  · simp [hp, hdiff.mp hp]
  · simp only [hp, if_neg, ite_false, gt_iff_lt]
    simp [hp]
    by_contra hne
    exact hp (hdiff.mpr hne)

/-- C2 amended witness: Binance 3 vs Kraken 4 for SOL/USDT differ, so a
record is emitted. -/
theorem emission_iff_prices_differ_witness :
    ((scoreOne ⟨"SOL", some 3, none⟩ ⟨"SOL", some 4, none⟩ "USDT").isSome
      ↔ (3 : ℚ) ≠ 4) :=
  emission_iff_prices_differ ⟨"SOL", some 3, none⟩ ⟨"SOL", some 4, none⟩
    "USDT" 3 4 (by decide) rfl rfl (by norm_num) (by norm_num)

/-- C3: the sequence returned by `calculate_arbitrage_opportunities` is
sorted by `price_diff_pct` in descending order, and records with equal
`price_diff_pct` keep the relative order they had in the unsorted scored
list (stable sort, ties broken by input order): filtering the output to
any fixed key value gives exactly the input's records with that key, in
input order. -/
theorem sorted_desc_stable_ties :
    ∀ (b k : PriceTable) (st : Option Opportunity) (v : ℚ),
      ((calculate_arbitrage_opportunities b k st).1.Pairwise
        fun x y => y.price_diff_pct ≤ x.price_diff_pct) ∧
      ((calculate_arbitrage_opportunities b k st).1.filter
          fun o => o.price_diff_pct == v)
        = (rawOpportunities b k).filter
            fun o => o.price_diff_pct == v := by
  intro b k st v
  rw [calcArb_fst]
  exact ⟨sorted_sortDescBy _ _, filter_sortDescBy _ _ _⟩

/-- C4: after a run that produces at least one Opportunity, the stored
last opportunity read back by `get_last_opportunity` is the head of the
returned (descending-sorted) sequence; before any such run the sentinel
(`{}`, modelled `none`) is returned. -/
theorem last_opportunity_tracks_top :
    (∀ (b k : PriceTable) (st : Option Opportunity) (o : Opportunity),
        ((calculate_arbitrage_opportunities b k st).1).head? = some o →
        get_last_opportunity (calculate_arbitrage_opportunities b k st).2
          = some o) ∧
    get_last_opportunity none = none := by
  refine ⟨?_, rfl⟩
  intro b k st o h
  unfold get_last_opportunity
  unfold calculate_arbitrage_opportunities at h ⊢
  by_cases h1 : b = [] ∨ k = []
  · rw [if_pos h1] at h
    simp at h
  · rw [if_neg h1] at h ⊢
    by_cases h2 : rawOpportunities b k = []
    · rw [if_pos h2] at h
      simp at h
    · rw [if_neg h2] at h ⊢
      dsimp only at h ⊢
      rw [h]

/-- C4 witness: the concrete run with one opportunity stores and returns
exactly that record. -/
theorem last_opportunity_tracks_top_witness :
    get_last_opportunity
        (calculate_arbitrage_opportunities [⟨"BTC", some 100, none⟩]
          [⟨"BTC", some 102, none⟩] none).2
      = some ⟨"BTC", "USDT", "Binance", "Kraken", 100, 102, 2⟩ :=
  last_opportunity_tracks_top.1 _ _ none _ (by simp [calc_run1])

/-- C5: with an empty price table on either side, or a join producing zero
rows, `calculate_arbitrage_opportunities` returns the empty sequence and
leaves the stored last-opportunity state unchanged. -/
theorem empty_inputs_leave_state :
    ∀ (b k : PriceTable) (st : Option Opportunity),
      b = [] ∨ k = [] ∨ mergeTables b k = [] →
      calculate_arbitrage_opportunities b k st = ([], st) := by
  intro b k st h
  rcases h with h | h | h
  · rw [calculate_arbitrage_opportunities, if_pos (Or.inl h)]
  · rw [calculate_arbitrage_opportunities, if_pos (Or.inr h)]
  · have hraw : rawOpportunities b k = [] := by
      simp [rawOpportunities, h]
    rw [calculate_arbitrage_opportunities]
    by_cases h1 : b = [] ∨ k = []
    · rw [if_pos h1]
    · rw [if_neg h1, if_pos hraw]

/-- C5 witness: an empty Kraken table returns no opportunities and keeps a
previously stored record intact. -/
theorem empty_inputs_leave_state_witness :
    calculate_arbitrage_opportunities [⟨"BTC", some 7, none⟩] []
        (some ⟨"BTC", "USDT", "Binance", "Kraken", 100, 102, 2⟩)
      = ([], some ⟨"BTC", "USDT", "Binance", "Kraken", 100, 102, 2⟩) :=
  empty_inputs_leave_state _ _ _ (Or.inr (Or.inl rfl))

/-- C6 counterexample: the BTC row exists but its USDT price cell is
absent (`NaN`); `calculate_trade_profit` does NOT fail — it returns a
fully formed TradeSimulation whose derived fields are nulled (`NaN`) and
`profitable = false`, contradicting "never a record with nulled fields". -/
theorem nan_price_returns_record_counterexample :
    lookupPriceCell [⟨"BTC", none, none⟩, ⟨"ETH", some 3, none⟩]
        "BTC" "USDT" = some none ∧
    calculate_trade_profit [⟨"BTC", none, none⟩, ⟨"ETH", some 3, none⟩]
        [⟨"BTC", some 5, none⟩] "BTC" "USDT" 100 "Binance" "Kraken"
      = some ⟨"BTC", "USDT", 100, "Binance", none, none, "Kraken", some 5,
              none, none, none, none, false⟩ :=
  ⟨rfl, rfl⟩

/-- C6 amended: `calculate_trade_profit` returns the empty failure (`{}`)
exactly when a price table is empty or the symbol/market lookup itself
fails (symbol not found, or market without a column); a row found with an
absent (`NaN`) price instead yields a populated record whose derived
fields are `NaN`. -/
theorem trade_profit_failure_iff :
    ∀ (b k : PriceTable) (s m : String) (a : ℚ) (be se : String),
      calculate_trade_profit b k s m a be se = none ↔
        b = [] ∨ k = [] ∨ lookupPriceCell b s m = none ∨
          lookupPriceCell k s m = none := by
  intro b k s m a be se
  by_cases hbk : b = [] ∨ k = []
  · rw [calculate_trade_profit, if_pos hbk]
    constructor
    · intro _
      rcases hbk with h | h
      · exact Or.inl h
      · exact Or.inr (Or.inl h)
    · intro _
      rfl
  · rw [calculate_trade_profit, if_neg hbk]
    have hb := (not_or.mp hbk).1
    have hk := (not_or.mp hbk).2
    rcases hB : lookupPriceCell b s m with _ | cb <;>
      rcases hK : lookupPriceCell k s m with _ | ck <;>
        simp [hB, hK, hb, hk]

/-- C7: every successful `calculate_trade_profit` result satisfies
`crypto_amount = initial_investment / buy_price`,
`sell_amount = crypto_amount * sell_price`, `final_amount = sell_amount`,
`profit = final_amount - initial_investment`,
`profit_percentage = profit / initial_investment * 100`, and
`profitable` holds exactly when `profit > 0` (zero profit is not
profitable); in particular buy 50000 / sell 50100 / amount 100 gives
crypto_amount 0.002, sell_amount 100.2, profit 0.2, profit_percentage
0.2, profitable true. -/
theorem trade_profit_invariants :
    (∀ (b k : PriceTable) (s m : String) (a : ℚ) (be se : String)
        (sim : TradeSimulation) (bp sp : ℚ),
        calculate_trade_profit b k s m a be se = some sim →
        sim.buy_price = some bp → sim.sell_price = some sp →
        sim.initial_investment = a ∧
        sim.crypto_amount = some (a / bp) ∧
        sim.sell_amount = some (a / bp * sp) ∧
        sim.final_amount = sim.sell_amount ∧
        sim.profit = some (a / bp * sp - a) ∧
        sim.profit_percentage = some ((a / bp * sp - a) / a * 100) ∧
        (sim.profitable = true ↔ 0 < a / bp * sp - a)) ∧
    calculate_trade_profit [⟨"BTC", some 50000, none⟩]
        [⟨"BTC", some 50100, none⟩] "BTC" "USDT" 100 "Binance" "Kraken"
      = some ⟨"BTC", "USDT", 100, "Binance", some 50000, some (1/500),
              "Kraken", some 50100, some (501/5), some (501/5),
              some (1/5), some (1/5), true⟩ := by
  refine ⟨?_, trade_run⟩
  intro b k s m a be se sim bp sp hsim hbp hsp
  rw [calculate_trade_profit] at hsim
  split at hsim
  · exact absurd hsim (by simp)
  · split at hsim
    · cases Option.some.inj hsim
      dsimp only at hbp hsp ⊢
      rw [hbp, hsp]
      simp [nanDiv, nanMul, nanSub, nanPos]
    · exact absurd hsim (by simp)

/-- C7 witness: the theorem applied to the concrete 50000/50100/100 run:
its profitable flag is the sign check on the profit. -/
theorem trade_profit_invariants_witness :
    ((⟨"BTC", "USDT", 100, "Binance", some 50000, some (1/500), "Kraken",
        some 50100, some (501/5), some (501/5), some (1/5), some (1/5),
        true⟩ : TradeSimulation).profitable = true
      ↔ 0 < (100 : ℚ) / 50000 * 50100 - 100) :=
  (trade_profit_invariants.1 _ _ "BTC" "USDT" 100 "Binance" "Kraken" _
    50000 50100 trade_profit_invariants.2 rfl rfl).2.2.2.2.2.2

/-- C8: every row returned by `get_low_price_gainers` comes from a merged
row with both USDT prices present, has at least one of the two prices
below 1 (never both ≥ 1), `avg_price` equal to the mean of the two
prices, and `price_diff_pct` computed by the same formula as the
opportunity scorer. -/
theorem low_price_gainers_spec :
    ∀ (b k : PriceTable) (g : LowPriceGainer),
      g ∈ get_low_price_gainers b k →
      (g.binance_price < 1 ∨ g.kraken_price < 1) ∧
      ¬ (1 ≤ g.binance_price ∧ 1 ≤ g.kraken_price) ∧
      g.avg_price = (g.binance_price + g.kraken_price) / 2 ∧
      g.price_diff_pct
        = |g.binance_price - g.kraken_price| /
            min g.binance_price g.kraken_price * 100 ∧
      ∃ rb rk, (rb, rk) ∈ mergeTables b k ∧
        rb.usdt_price = some g.binance_price ∧
        rk.usdt_price = some g.kraken_price ∧ g.symbol = rb.symbol := by
  intro b k g h
  obtain ⟨rb, rk, hmem, hpb, hpk, hsy, hlow, havg, hdiff⟩ :=
    mem_low_price_gainers h
  refine ⟨hlow, ?_, havg, hdiff, rb, rk, hmem, hpb, hpk, hsy⟩
  rintro ⟨h1, h2⟩
  rcases hlow with h | h
  · exact absurd h (not_lt.mpr h1)
  · exact absurd h (not_lt.mpr h2)

/-- C8 witness: the DOGE run (prices 0.5 and 0.25) satisfies the
sub-unit-price condition. -/
theorem low_price_gainers_spec_witness :
    ((⟨"DOGE", 1/2, 1/4, 100, 3/8⟩ : LowPriceGainer).binance_price < 1 ∨
     (⟨"DOGE", 1/2, 1/4, 100, 3/8⟩ : LowPriceGainer).kraken_price < 1) :=
  (low_price_gainers_spec [⟨"DOGE", some (1/2), none⟩]
    [⟨"DOGE", some (1/4), none⟩] _
    (by rw [gain_run]; exact List.mem_singleton_self _)).1

/-- C9: no Opportunity ever has `symbol == market` (the scorer skips
self-pairs), and — since both fetchers only build rows for the symbols of
`TOP_CRYPTOS`, which contains no market symbol for the reference market
USDT — no LowPriceGainer row has its symbol equal to its (USDT) market. -/
theorem no_self_pairing :
    ∀ (b k : PriceTable) (st : Option Opportunity),
      (∀ o ∈ (calculate_arbitrage_opportunities b k st).1,
        o.symbol ≠ o.market) ∧
      ((∀ r ∈ b, r.symbol ∈ TOP_CRYPTOS) →
        ∀ g ∈ get_low_price_gainers b k, g.symbol ≠ "USDT") := by
  intro b k st
  constructor
  · intro o ho
    obtain ⟨rb, rk, market, hmem, hmk, hs⟩ :=
      mem_rawOpportunities (mem_calcArb.mp ho)
    obtain ⟨bp, kp, hbp, hkp, hsym, hpos, hcase⟩ := scoreOne_inv hs
    rcases hcase with ⟨_, rfl⟩ | ⟨_, rfl⟩ <;> exact hsym
  · intro hb g hg
    obtain ⟨rb, rk, hmem, _, _, hsy, _, _, _⟩ := mem_low_price_gainers hg
    have htop : rb.symbol ∈ TOP_CRYPTOS := hb rb (mem_mergeTables hmem).1
    rw [hsy]
    intro hcontra
    rw [hcontra] at htop
    exact absurd htop (by decide)

/-- C9 witness: the theorem applied to the concrete DOGE run. -/
theorem no_self_pairing_witness :
    (⟨"DOGE", 1/2, 1/4, 100, 3/8⟩ : LowPriceGainer).symbol ≠ "USDT" :=
  (no_self_pairing [⟨"DOGE", some (1/2), none⟩]
      [⟨"DOGE", some (1/4), none⟩] none).2 (by decide) _
    (by rw [gain_run]; exact List.mem_singleton_self _)

/-- C10: `calculate_trade_profit` never validates the exchange-name
arguments: whenever the lookups succeed, any `buy_exchange` other than
exactly "Binance" silently uses the Kraken price as the buy price (and
symmetrically for `sell_exchange`), and the call returns a populated
record, not a failure. -/
theorem exchange_name_not_validated :
    ∀ (b k : PriceTable) (s m : String) (a : ℚ) (be se : String)
      (cb ck : Option ℚ),
      b ≠ [] → k ≠ [] →
      lookupPriceCell b s m = some cb →
      lookupPriceCell k s m = some ck →
      be ≠ "Binance" →
      calculate_trade_profit b k s m a be se ≠ none ∧
      (calculate_trade_profit b k s m a be se).map
          TradeSimulation.buy_price = some ck ∧
      (se ≠ "Binance" →
        (calculate_trade_profit b k s m a be se).map
            TradeSimulation.sell_price = some ck) ∧
      (se = "Binance" →
        (calculate_trade_profit b k s m a be se).map
            TradeSimulation.sell_price = some cb) := by
  intro b k s m a be se cb ck hb hk hB hK hbe
  have hcond : ¬ (b = [] ∨ k = []) := not_or.mpr ⟨hb, hk⟩
  rw [calculate_trade_profit]
  simp only [if_neg hcond, hB, hK]
  refine ⟨by simp, ?_, ?_, ?_⟩
  · simp [hbe]
  · intro hse
    simp [hse]
  · intro hse
    simp [hse]

/-- C10 witness: a lowercase "binance" buy-exchange silently buys at the
Kraken price 50100. -/
theorem exchange_name_not_validated_witness :
    (calculate_trade_profit [⟨"BTC", some 50000, none⟩]
        [⟨"BTC", some 50100, none⟩] "BTC" "USDT" 100 "binance"
        "Kraken").map TradeSimulation.buy_price = some (some 50100) :=
  (exchange_name_not_validated _ _ "BTC" "USDT" 100 "binance" "Kraken"
    (some 50000) (some 50100) (by decide) (by decide) lookup_trade_b
    lookup_trade_k (by decide)).2.1

end CryptoGap
